import Mathlib

set_option maxRecDepth 8000

/-!
Verification development for the seat-assignment program in src/seat.py.
Times of day are modelled as natural numbers of minutes since midnight;
the Python sentinel datetime.time.min becomes the natural number 0.
Strings are modelled with the Lean String type; the case-insensitive
substring tests of pandas str.contains are implemented over character
lists.  The per-student shuffle performed by numpy rng.shuffle is
modelled by an explicit function argument from the shuffle counter to a
permutation of the candidate list; theorems that depend on the shuffle
only being a reordering take the permutation property as a hypothesis.
-/

namespace SeatApp

/-- Lower-case an ASCII character, mirroring the case folding done by
pandas str.contains with case=False on the roster text. -/
def lcChar (c : Char) : Char :=
  if 'A' ≤ c ∧ c ≤ 'Z' then Char.ofNat (c.toNat + 32) else c

/-- Test whether the first character list is a leading run of the second. -/
def leadsCL : List Char → List Char → Bool
  | [], _ => true
  | _ :: _, [] => false
  | a :: as, b :: bs => a == b && leadsCL as bs

/-- Test whether the first character list occurs contiguously inside the second. -/
def hasSubCL (pat : List Char) : List Char → Bool
  | [] => leadsCL pat []
  | b :: bs => leadsCL pat (b :: bs) || hasSubCL pat bs

/-- str.startswith on strings, used for the CC Room tests in the pool builders. -/
def beginsWith (s pat : String) : Bool :=
  leadsCL pat.toList s.toList

/-- Case-insensitive containment over an optional accommodation text,
mirroring Series.str.contains(pat, case=False, na=False): a missing value
never matches. -/
def accomContains (pat : String) : Option String → Bool
  | none => false
  | some t => hasSubCL (pat.toList.map lcChar) (t.toList.map lcChar)

/-- The sentinel minimum time of day, the model of datetime.time.min. -/
def timeMin : Nat := 0

/-- One roster row as read from the spreadsheet, before the time coercion
performed by read_source: the three time-like columns either parsed to a
time (some t) or failed to parse / were missing (none). -/
structure RawRow where
  studentNumber : Nat
  lastName : String
  firstName : String
  beginTimeRaw : Option Nat
  endTimeRaw : Option Nat
  classTimeRaw : Option Nat
  accommodation : Option String
deriving DecidableEq

/-- One ingested roster row: times coerced, the Requires Adjustable flag derived. -/
structure Person where
  studentNumber : Nat
  lastName : String
  firstName : String
  beginTime : Nat
  endTime : Nat
  classTime : Nat
  accommodation : Option String
  requiresAdjustable : Bool
deriving DecidableEq

/-- The fillna(datetime.time.min) of read_source applied after
pd.to_datetime(errors="coerce"): a failed or missing parse becomes the
sentinel minimum time. -/
def coerceTime (o : Option Nat) : Nat :=
  o.getD timeMin

/-- The per-row content of read_source: tag Requires Adjustable from the
Test Accommodation text and coerce the three time columns. -/
def read_source_row (r : RawRow) : Person :=
  { studentNumber := r.studentNumber
    lastName := r.lastName
    firstName := r.firstName
    beginTime := coerceTime r.beginTimeRaw
    endTime := coerceTime r.endTimeRaw
    classTime := coerceTime r.classTimeRaw
    accommodation := r.accommodation
    requiresAdjustable := accomContains "Height Adjustable" r.accommodation }

/-- The category tags used in the SEATS catalogue. -/
inductive SeatType where
  | ws | reg | pr | sas | sha
deriving DecidableEq

/-- One catalogue entry of SEATS. -/
structure SeatInfo where
  type : SeatType
  adjustable : Bool
  seat_number : Nat
  classroom : Option Nat
deriving DecidableEq

/-- Workstations WS 1 to WS 10, only WS 6 adjustable. -/
def wsSeats : List (String × SeatInfo) :=
  (List.range' 1 10).map fun n =>
    ("WS " ++ toString n, ⟨SeatType.ws, n == 6, n, none⟩)

/-- Regular open-area seats Seat 1 to Seat 30, 13, 15 and 30 adjustable. -/
def regSeats : List (String × SeatInfo) :=
  (List.range' 1 30).map fun n =>
    ("Seat " ++ toString n, ⟨SeatType.reg, n == 13 || n == 15 || n == 30, n, none⟩)

/-- Main-building private rooms Room 345 to Room 354. -/
def roomSeats : List (String × SeatInfo) :=
  (List.range' 345 10).map fun n =>
    ("Room " ++ toString n,
     ⟨SeatType.pr,
      n == 345 || n == 347 || n == 348 || n == 349 || n == 351 || n == 354, n, none⟩)

/-- Campus Corners private rooms CC Room 1 to CC Room 25, none adjustable. -/
def ccSeats : List (String × SeatInfo) :=
  (List.range' 1 25).map fun n =>
    ("CC Room " ++ toString n, ⟨SeatType.pr, false, n, none⟩)

/-- SAS testing offices SAS 1 to SAS 12, only SAS 5 adjustable. -/
def sasSeats : List (String × SeatInfo) :=
  (List.range' 1 12).map fun n =>
    ("SAS " ++ toString n, ⟨SeatType.sas, n == 5, n, none⟩)

/-- SHA classroom 356: 17 seats, seat 1 adjustable. -/
def sha356Seats : List (String × SeatInfo) :=
  (List.range' 1 17).map fun n =>
    ("SHA 356 Seat " ++ toString n, ⟨SeatType.sha, n == 1, n, some 356⟩)

/-- SHA classroom 357: 19 seats, seat 1 adjustable. -/
def sha357Seats : List (String × SeatInfo) :=
  (List.range' 1 19).map fun n =>
    ("SHA 357 Seat " ++ toString n, ⟨SeatType.sha, n == 1, n, some 357⟩)

/-- SHA classroom 358: 31 seats, seats 1 to 3 adjustable. -/
def sha358Seats : List (String × SeatInfo) :=
  (List.range' 1 31).map fun n =>
    ("SHA 358 Seat " ++ toString n, ⟨SeatType.sha, n == 1 || n == 2 || n == 3, n, some 358⟩)

/-- SHA classroom 359: 15 seats, seat 1 adjustable. -/
def sha359Seats : List (String × SeatInfo) :=
  (List.range' 1 15).map fun n =>
    ("SHA 359 Seat " ++ toString n, ⟨SeatType.sha, n == 1, n, some 359⟩)

/-- The full seat catalogue, in the insertion order of the Python dict. -/
def SEATS : List (String × SeatInfo) :=
  wsSeats ++ regSeats ++ roomSeats ++ ccSeats ++ sasSeats ++
    sha356Seats ++ sha357Seats ++ sha358Seats ++ sha359Seats

/-- SEATS[s]["adjustable"]; an id outside the catalogue yields false (such an
id is never produced by the pool builders, which draw from SEATS). -/
def seatAdjustable (s : String) : Bool :=
  match SEATS.lookup s with
  | some info => info.adjustable
  | none => false

/-- SEATS.get(room, default).get("type", "reg") from write_excel: an id outside
the catalogue falls back to the regular kind. -/
def seatTypeOf (room : String) : SeatType :=
  match SEATS.lookup room with
  | some info => info.type
  | none => SeatType.reg

/-- Word characters for the word-boundary test of the seat-number regex. -/
def isWordChar (c : Char) : Bool :=
  ('a' ≤ c && c ≤ 'z') || ('A' ≤ c && c ≤ 'Z') || ('0' ≤ c && c ≤ '9') || c == '_'

/-- ASCII digit test. -/
def isDigitCh (c : Char) : Bool :=
  '0' ≤ c && c ≤ '9'

/-- Numeric value of a digit run. -/
def digitsVal (l : List Char) : Nat :=
  l.foldl (fun a c => a * 10 + (c.toNat - 48)) 0

/-- Drop a literal token from the front of a character list, if it leads it. -/
def dropRun : List Char → List Char → Option (List Char)
  | [], l => some l
  | _ :: _, [] => none
  | a :: as, b :: bs => if a == b then dropRun as bs else none

/-- Try one alternative of the seat-number regex at the current position:
the literal token followed by at least one digit; captures the digit run. -/
def tryTok (tok : List Char) (l : List Char) : Option Nat :=
  match dropRun tok l with
  | some rest =>
      let ds := rest.takeWhile isDigitCh
      if ds.isEmpty then none else some (digitsVal ds)
  | none => none

/-- Try the four regex alternatives Seat, WS, Room, SAS in order at one position. -/
def matchNumAt (l : List Char) : Option Nat :=
  match tryTok "Seat ".toList l with
  | some n => some n
  | none =>
    match tryTok "WS ".toList l with
    | some n => some n
    | none =>
      match tryTok "Room ".toList l with
      | some n => some n
      | none => tryTok "SAS ".toList l

/-- Left-to-right scan for the regex, carrying whether the current position
sits at a word boundary (start of text, or preceded by a non-word character). -/
def scanSeatNum : Bool → List Char → Option Nat
  | _, [] => none
  | bOk, c :: rest =>
    match (if bOk then matchNumAt (c :: rest) else none) with
    | some n => some n
    | none => scanSeatNum (!isWordChar c) rest

/-- Model of re.search for the pattern matching Seat, WS, Room or SAS followed
by a space and digits, at a word boundary, returning the captured number. -/
def parseSeatNum (s : String) : Option Nat :=
  scanSeatNum true s.toList

/-- The seat-number cell written by write_excel: the catalogued seat_number
when the room is catalogued (a zero would be falsy and fall through, as in
the Python or-expression), else the number parsed out of the room text;
none means the cell is left unwritten. -/
def seatNumberCell (room : String) : Option Nat :=
  match SEATS.lookup room with
  | some info => if info.seat_number = 0 then parseSeatNum room else some info.seat_number
  | none => parseSeatNum room

/-- State threaded through one assign_students pass: the per-seat next-free
times, the placed and unplaced rows so far, and the shuffle counter. -/
structure AState where
  avail : String → Nat
  placed : List (Person × String)
  left : List Person
  ctr : Nat

/-- The inner for-loop over the shuffled candidates: the first seat whose
next-free time is at most the begin time, if any. -/
def findSeat (b : Nat) (avail : String → Nat) : List String → Option String
  | [] => none
  | s :: rest => if avail s ≤ b then some s else findSeat b avail rest

/-- One iteration of the student loop of assign_students: build the candidate
list, shuffle it, place the student on the first free candidate or record
the student as unplaced. -/
def placeOne (shuffle : Nat → List String → List String) (seat_pool : List String)
    (needs_adj : Bool) (st : AState) (stu : Person) : AState :=
  match findSeat stu.beginTime st.avail
      (shuffle st.ctr (seat_pool.filter fun s => !needs_adj || seatAdjustable s)) with
  | some seat =>
      { avail := fun t => if t = seat then stu.endTime else st.avail t
        placed := st.placed ++ [(stu, seat)]
        left := st.left
        ctr := st.ctr + 1 }
  | none =>
      { st with left := st.left ++ [stu], ctr := st.ctr + 1 }

/-- Stable sort of a cohort by Begin Time, the model of sort_values. -/
def sortByBegin (l : List Person) : List Person :=
  l.insertionSort fun a b => a.beginTime ≤ b.beginTime

/-- assign_students from seat.py: availability starts fully free, the
adjustable-requiring sub-group is processed first, each sub-group in
ascending begin-time order; returns (placed, unplaced). -/
def assign_students (shuffle : Nat → List String → List String)
    (df : List Person) (seat_pool : List String) :
    List (Person × String) × List Person :=
  let st0 : AState := ⟨fun _ => timeMin, [], [], 0⟩
  let g1 := sortByBegin (df.filter fun p => p.requiresAdjustable)
  let st1 := g1.foldl (placeOne shuffle seat_pool true) st0
  let g2 := sortByBegin (df.filter fun p => !p.requiresAdjustable)
  let st2 := g2.foldl (placeOne shuffle seat_pool false) st1
  (st2.placed, st2.left)

/-- The six room-type checkboxes. -/
structure RoomPrefs where
  private_rooms : Bool
  campus_corners : Bool
  workstations : Bool
  regular_seats : Bool
  sas_offices : Bool
  sha_classrooms : Bool
deriving DecidableEq

/-- The classifier masks of main, in rule order. -/
def pr_mask (p : Person) : Bool := accomContains "Private Room" p.accommodation

/-- Workstation needs: Read and Write, MS Word or Kurzweil. -/
def ws_mask (p : Person) : Bool :=
  accomContains "Read and Write" p.accommodation ||
  accomContains "MS Word" p.accommodation ||
  accomContains "Kurzweil" p.accommodation

/-- Scribe needs. -/
def scribe_mask (p : Person) : Bool := accomContains "Scribe" p.accommodation

/-- Final exams. -/
def final_mask (p : Person) : Bool := accomContains "Final" p.accommodation

/-- Evening students: End Time in the 22nd hour and Begin Time strictly
before Class Time. -/
def es_mask (p : Person) : Bool :=
  (p.endTime / 60 == 22) && decide (p.beginTime < p.classTime)

/-- SAS offices mask. -/
def sas_mask (p : Person) : Bool :=
  accomContains "SAS" p.accommodation ||
  accomContains "Special" p.accommodation ||
  accomContains "Individual" p.accommodation ||
  accomContains "Separate" p.accommodation ||
  accomContains "Extra Time" p.accommodation ||
  accomContains "Alternative" p.accommodation ||
  accomContains "Modified" p.accommodation

/-- The nine cohorts produced by the sequential classifier. -/
structure Cohorts where
  DF1_PR : List Person
  DF2_WS : List Person
  DF3_HAD : List Person
  DF4_SCRIBE : List Person
  DF6_FINAL : List Person
  DF7_ES : List Person
  DF8_SAS : List Person
  DF5_MAIN : List Person
  DF9_CLASSROOMS : List Person

/-- The sequential cohort building of main: each rule claims the matching
still-unclassified rows and removes them before the next rule runs; DF5_MAIN
takes everything left, so DF9_CLASSROOMS (what remains after dropping
DF5_MAIN) is empty by construction. -/
def buildCohorts (prefs : RoomPrefs) (df : List Person) : Cohorts :=
  let DF1 := df.filter pr_mask
  let r1 := df.filter fun p => !pr_mask p
  let DF2 := r1.filter ws_mask
  let r2 := r1.filter fun p => !ws_mask p
  let DF3 := r2.filter fun p => p.requiresAdjustable
  let r3 := r2.filter fun p => !p.requiresAdjustable
  let DF4 := r3.filter scribe_mask
  let r4 := r3.filter fun p => !scribe_mask p
  let DF6 := r4.filter final_mask
  let r5 := r4.filter fun p => !final_mask p
  let DF7 := r5.filter es_mask
  let r6 := r5.filter fun p => !es_mask p
  let DF8 := if prefs.sas_offices then r6.filter sas_mask else []
  let r7 := if prefs.sas_offices then r6.filter (fun p => !sas_mask p) else r6
  { DF1_PR := DF1, DF2_WS := DF2, DF3_HAD := DF3, DF4_SCRIBE := DF4
    DF6_FINAL := DF6, DF7_ES := DF7, DF8_SAS := DF8, DF5_MAIN := r7
    DF9_CLASSROOMS := [] }

/-- The private-room pool: main-building private rooms when enabled, with the
Campus Corners rooms appended when that preference is on. -/
def pool_private_rooms (prefs : RoomPrefs) : List String :=
  (if prefs.private_rooms then
      (SEATS.filter fun kv =>
        decide (kv.2.type = SeatType.pr) && !beginsWith kv.1 "CC Room").map (·.1)
    else [])
  ++ (if prefs.campus_corners then
      (SEATS.filter fun kv => beginsWith kv.1 "CC Room").map (·.1)
    else [])

/-- The workstation pool, empty when disabled. -/
def pool_workstations (prefs : RoomPrefs) : List String :=
  if prefs.workstations then
    (SEATS.filter fun kv => decide (kv.2.type = SeatType.ws)).map (·.1)
  else []

/-- The regular-seat pool, empty when disabled. -/
def pool_regular_seats (prefs : RoomPrefs) : List String :=
  if prefs.regular_seats then
    (SEATS.filter fun kv => decide (kv.2.type = SeatType.reg)).map (·.1)
  else []

/-- The SAS-office pool, empty when disabled. -/
def pool_sas_offices (prefs : RoomPrefs) : List String :=
  if prefs.sas_offices then
    (SEATS.filter fun kv => decide (kv.2.type = SeatType.sas)).map (·.1)
  else []

/-- The SHA-classroom pool, empty when disabled. -/
def pool_sha_classrooms (prefs : RoomPrefs) : List String :=
  if prefs.sha_classrooms then
    (SEATS.filter fun kv => decide (kv.2.type = SeatType.sha)).map (·.1)
  else []

/-- All adjustable seats gathered from the enabled pools, in pool order. -/
def pool_adjustable (prefs : RoomPrefs) : List String :=
  (pool_private_rooms prefs ++ pool_workstations prefs ++ pool_regular_seats prefs ++
    pool_sas_offices prefs ++ pool_sha_classrooms prefs).filter seatAdjustable

/-- The (cohort, pool) pairs in the insertion order of the cohorts dict of
main; a pair is present only under the same conditions as in the code. -/
def cohortSeq (prefs : RoomPrefs) (c : Cohorts) : List (List Person × List String) :=
  (if prefs.private_rooms && !c.DF1_PR.isEmpty
    then [(c.DF1_PR, pool_private_rooms prefs)] else [])
  ++ (if !(pool_adjustable prefs).isEmpty && !c.DF3_HAD.isEmpty
    then [(c.DF3_HAD, pool_adjustable prefs)] else [])
  ++ (if prefs.private_rooms && !c.DF4_SCRIBE.isEmpty
    then [(c.DF4_SCRIBE, pool_private_rooms prefs)] else [])
  ++ (if prefs.workstations && !c.DF2_WS.isEmpty
    then [(c.DF2_WS, pool_workstations prefs)] else [])
  ++ (if prefs.sha_classrooms && !c.DF6_FINAL.isEmpty
    then [(c.DF6_FINAL, pool_sha_classrooms prefs)] else [])
  ++ (if prefs.sha_classrooms && !c.DF7_ES.isEmpty
    then [(c.DF7_ES, pool_sha_classrooms prefs)] else [])
  ++ (if prefs.regular_seats && !c.DF5_MAIN.isEmpty
    then [(c.DF5_MAIN, pool_regular_seats prefs)] else [])
  ++ (if prefs.sas_offices && !c.DF8_SAS.isEmpty
    then [(c.DF8_SAS, pool_sas_offices prefs)] else [])
  ++ (if prefs.sha_classrooms && !c.DF9_CLASSROOMS.isEmpty
    then [(c.DF9_CLASSROOMS, pool_sha_classrooms prefs)] else [])

/-- The run-wide state of the guard loop: the seen student numbers, the
assigns dict (modelled as an association list with replacement on rewrite),
and the trace of ledger writes tagged with the index of the cohort pass
that produced them. -/
structure RunState where
  seen : List Nat
  assigns : List (String × Person)
  writes : List (Nat × String × Person)

/-- Write one key into the assigns dict, replacing any previous binding. -/
def dinsert (m : List (String × Person)) (k : String) (v : Person) :
    List (String × Person) :=
  (m.filter fun kv => !decide (kv.1 = k)) ++ [(k, v)]

/-- One iteration of the cohort loop of main: run the scheduler, drop the
rows whose student number is already seen (the cross-cohort guard), extend
the seen set, and record each surviving placement in the ledger. -/
def processCohort (shuffle : Nat → Nat → List String → List String) (i : Nat)
    (st : RunState) (part : List Person) (pool : List String) : RunState :=
  let res := assign_students (shuffle i) part pool
  let assigned_unique := res.1.filter fun x => !decide (x.1.studentNumber ∈ st.seen)
  { seen := st.seen ++ assigned_unique.map fun x => x.1.studentNumber
    assigns := assigned_unique.foldl (fun m x => dinsert m x.2 x.1) st.assigns
    writes := st.writes ++ assigned_unique.map fun x => (i, x.2, x.1) }

/-- The sequential cohort loop, numbering the passes from i upward. -/
def runCohorts (shuffle : Nat → Nat → List String → List String) :
    Nat → RunState → List (List Person × List String) → RunState
  | _, st, [] => st
  | i, st, (part, pool) :: rest =>
      runCohorts shuffle (i + 1) (processCohort shuffle i st part pool) rest

/-- Steps 6 to 10 of main: ingest the roster, build the cohorts and pools,
and run the guarded assignment loop over the cohort sequence. -/
def mainAssign (prefs : RoomPrefs) (shuffle : Nat → Nat → List String → List String)
    (raw : List RawRow) : RunState :=
  let df := raw.map read_source_row
  runCohorts shuffle 0 ⟨[], [], []⟩ (cohortSeq prefs (buildCohorts prefs df))

/-! Concrete inputs used to instantiate the theorems below. -/

/-- Preferences enabling only the regular seats. -/
def cePrefs : RoomPrefs := ⟨false, false, false, true, false, false⟩

/-- Preferences enabling every room type. -/
def prefsAll : RoomPrefs := ⟨true, true, true, true, true, true⟩

/-- A shuffle outcome that brings Seat 13 to the front of any candidate list
containing it and reorders nothing else; it is a permutation of its input,
so it is an outcome the numpy shuffle can produce. -/
def ceShuffle : Nat → Nat → List String → List String :=
  fun _ _ l => if "Seat 13" ∈ l then "Seat 13" :: l.erase "Seat 13" else l

/-- The identity shuffle outcome for the whole run. -/
def idShuffle : Nat → Nat → List String → List String := fun _ _ l => l

/-- The identity shuffle outcome for a single scheduling call. -/
def wShuffle : Nat → List String → List String := fun _ l => l

/-- A roster row requesting a height-adjustable desk, testing 9:00 to 11:00. -/
def rowHad : RawRow :=
  { studentNumber := 1, lastName := "Ada", firstName := "H",
    beginTimeRaw := some 540, endTimeRaw := some 660, classTimeRaw := some 0,
    accommodation := some "Height Adjustable" }

/-- A roster row with no accommodation, testing 9:00 to 11:00. -/
def rowMain : RawRow :=
  { studentNumber := 2, lastName := "Bob", firstName := "M",
    beginTimeRaw := some 540, endTimeRaw := some 660, classTimeRaw := some 0,
    accommodation := none }

/-- A two-row roster: one adjustable-desk request and one plain row with
overlapping test windows. -/
def ceRoster : List RawRow := [rowHad, rowMain]

/-- The ingested adjustable-desk person of ceRoster. -/
def pHadP : Person := read_source_row rowHad

/-- The ingested plain person of ceRoster. -/
def pMainP : Person := read_source_row rowMain

/-- Two roster rows sharing student number 7 with overlapping windows. -/
def rowDupA : RawRow :=
  { studentNumber := 7, lastName := "Dup", firstName := "A",
    beginTimeRaw := some 540, endTimeRaw := some 660, classTimeRaw := some 0,
    accommodation := none }

/-- Second roster row with the same student number 7. -/
def rowDupB : RawRow :=
  { studentNumber := 7, lastName := "Dup", firstName := "B",
    beginTimeRaw := some 540, endTimeRaw := some 660, classTimeRaw := some 0,
    accommodation := none }

/-- A roster whose two rows carry the same student number. -/
def ce2Roster : List RawRow := [rowDupA, rowDupB]

/-- A person whose end time 22:30 lies inside the 22nd hour without being
equal to 22:00, and whose begin time precedes the class time. -/
def pEvening : Person :=
  { studentNumber := 3, lastName := "Eve", firstName := "N",
    beginTime := 500, endTime := 1350, classTime := 600,
    accommodation := none, requiresAdjustable := false }

/-- An adjustable-requiring person testing 9:00 to 11:00. -/
def pAdjW : Person :=
  { studentNumber := 11, lastName := "Wit", firstName := "A",
    beginTime := 540, endTime := 660, classTime := 0,
    accommodation := some "Height Adjustable", requiresAdjustable := true }

/-- An adjustable-requiring person testing 10:00 to 12:00, overlapping pAdjW. -/
def pAdjW2 : Person :=
  { studentNumber := 12, lastName := "Wit", firstName := "B",
    beginTime := 600, endTime := 720, classTime := 0,
    accommodation := some "Height Adjustable", requiresAdjustable := true }

/-- A plain person testing 9:00 to 10:00. -/
def pPlain1 : Person :=
  { studentNumber := 21, lastName := "Back", firstName := "P",
    beginTime := 540, endTime := 600, classTime := 0,
    accommodation := none, requiresAdjustable := false }

/-- A plain person testing 10:00 to 11:00, back to back with pPlain1. -/
def pPlain2 : Person :=
  { studentNumber := 22, lastName := "Back", firstName := "Q",
    beginTime := 600, endTime := 660, classTime := 0,
    accommodation := none, requiresAdjustable := false }

/-- A roster row whose three time cells are all missing or unparseable. -/
def rowNoTimes : RawRow :=
  { studentNumber := 31, lastName := "Nil", firstName := "T",
    beginTimeRaw := none, endTimeRaw := none, classTimeRaw := none,
    accommodation := none }

/-! Helper lemmas about the scheduling engine. -/

/-- A seat returned by the candidate scan is one of the candidates. -/
theorem findSeat_mem (b : Nat) (avail : String → Nat) :
    ∀ (l : List String) (s : String), findSeat b avail l = some s → s ∈ l := by
  intro l
  induction l with
  | nil => intro s h; simp [findSeat] at h
  | cons a rest ih =>
    intro s h
    by_cases hav : avail a ≤ b
    · simp [findSeat, hav] at h
      simp [h]
    · simp [findSeat, hav] at h
      exact List.mem_cons_of_mem _ (ih s h)

/-- A seat returned by the candidate scan is free at the begin time. -/
theorem findSeat_le (b : Nat) (avail : String → Nat) :
    ∀ (l : List String) (s : String), findSeat b avail l = some s → avail s ≤ b := by
  intro l
  induction l with
  | nil => intro s h; simp [findSeat] at h
  | cons a rest ih =>
    intro s h
    by_cases hav : avail a ≤ b
    · simp [findSeat, hav] at h
      rwa [← h]
    · simp [findSeat, hav] at h
      exact ih s h

/-- First-fit characterisation of the candidate scan: it returns s exactly
when s is a candidate that is free at the begin time and every candidate
scanned before s is still busy. -/
theorem findSeat_eq_some_iff (b : Nat) (avail : String → Nat) :
    ∀ (l : List String) (s : String),
      findSeat b avail l = some s ↔
        ∃ l1 l2, l = l1 ++ s :: l2 ∧ avail s ≤ b ∧ ∀ t ∈ l1, b < avail t := by
  intro l
  induction l with
  | nil =>
    intro s
    constructor
    · intro h; simp [findSeat] at h
    · rintro ⟨l1, l2, hl, -, -⟩
      exact absurd hl (by simp)
  | cons a rest ih =>
    intro s
    constructor
    · intro h
      by_cases hav : avail a ≤ b
      · simp [findSeat, hav] at h
        exact ⟨[], rest, by simp [h], by rwa [← h], by simp⟩
      · simp [findSeat, hav] at h
        obtain ⟨l1, l2, hl, hs, hall⟩ := (ih s).mp h
        refine ⟨a :: l1, l2, by simp [hl], hs, ?_⟩
        intro t ht
        rcases List.mem_cons.mp ht with h1 | h2
        · subst h1; omega
        · exact hall t h2
    · rintro ⟨l1, l2, hl, hs, hall⟩
      cases l1 with
      | nil =>
        simp only [List.nil_append, List.cons.injEq] at hl
        rw [findSeat, hl.1]
        simp [hs]
      | cons a1 l1t =>
        simp only [List.cons_append, List.cons.injEq] at hl
        have hbusy : b < avail a := by
          rw [hl.1]; exact hall a1 (by simp)
        rw [findSeat, if_neg (by omega)]
        exact (ih s).mpr ⟨l1t, l2, hl.2, hs, fun t ht => hall t (by simp [ht])⟩

/-- The scan fails exactly when every candidate is busy at the begin time. -/
theorem findSeat_eq_none_iff (b : Nat) (avail : String → Nat) :
    ∀ l : List String, findSeat b avail l = none ↔ ∀ t ∈ l, b < avail t := by
  intro l
  induction l with
  | nil => simp [findSeat]
  | cons a rest ih =>
    constructor
    · intro h t ht
      rw [findSeat] at h
      by_cases hav : avail a ≤ b
      · simp [hav] at h
      · simp [hav] at h
        rcases List.mem_cons.mp ht with h1 | h2
        · subst h1; omega
        · exact (ih.mp h) t h2
    · intro hall
      rw [findSeat]
      have hbusy : b < avail a := hall a (by simp)
      rw [if_neg (by omega)]
      exact ih.mpr fun t ht => hall t (by simp [ht])

/-- Unfolding equation for a successful placement step. -/
theorem placeOne_of_some {shuffle : Nat → List String → List String}
    {pool : List String} {na : Bool} {st : AState} {stu : Person} {seat : String}
    (h : findSeat stu.beginTime st.avail
      (shuffle st.ctr (pool.filter fun s => !na || seatAdjustable s)) = some seat) :
    placeOne shuffle pool na st stu =
      { avail := fun t => if t = seat then stu.endTime else st.avail t
        placed := st.placed ++ [(stu, seat)]
        left := st.left
        ctr := st.ctr + 1 } := by
  simp [placeOne, h]

/-- Unfolding equation for a failed placement step: the student is recorded
as unplaced, nothing is raised. -/
theorem placeOne_of_none {shuffle : Nat → List String → List String}
    {pool : List String} {na : Bool} {st : AState} {stu : Person}
    (h : findSeat stu.beginTime st.avail
      (shuffle st.ctr (pool.filter fun s => !na || seatAdjustable s)) = none) :
    placeOne shuffle pool na st stu =
      { st with left := st.left ++ [stu], ctr := st.ctr + 1 } := by
  simp [placeOne, h]

/-- Sorting a cohort does not change its membership. -/
theorem mem_sortByBegin {p : Person} {l : List Person} :
    p ∈ sortByBegin l ↔ p ∈ l :=
  (List.perm_insertionSort _ l).mem_iff

/-- Over one sub-group pass, every placement of an adjustable-requiring
person lands on an adjustable seat, provided that held before the pass and
every person of the group carries the requirement flag of the pass. -/
theorem pass_adjOK (shuffle : Nat → List String → List String) (pool : List String)
    (na : Bool) (hsh : ∀ n l, (shuffle n l).Perm l) :
    ∀ (group : List Person) (st : AState),
      (∀ p ∈ group, p.requiresAdjustable = na) →
      (∀ x ∈ st.placed, x.1.requiresAdjustable = true → seatAdjustable x.2 = true) →
      ∀ x ∈ (group.foldl (placeOne shuffle pool na) st).placed,
        x.1.requiresAdjustable = true → seatAdjustable x.2 = true := by
  intro group
  induction group with
  | nil => intro st _ hst; simpa using hst
  | cons stu rest ih =>
    intro st hg hst
    rw [List.foldl_cons]
    refine ih (placeOne shuffle pool na st stu)
      (fun p hp => hg p (List.mem_cons_of_mem _ hp)) ?_
    intro x hx hadj
    cases hfs : findSeat stu.beginTime st.avail
        (shuffle st.ctr (pool.filter fun s => !na || seatAdjustable s)) with
    | none =>
      rw [placeOne_of_none hfs] at hx
      exact hst x hx hadj
    | some seat =>
      rw [placeOne_of_some hfs] at hx
      simp only [List.mem_append, List.mem_singleton] at hx
      rcases hx with hx | hx
      · exact hst x hx hadj
      · subst hx
        have h1 : stu.requiresAdjustable = true := hadj
        have hna : na = true := (hg stu (List.mem_cons_self _ _)).symm.trans h1
        have hseat : seat ∈ shuffle st.ctr (pool.filter fun s => !na || seatAdjustable s) :=
          findSeat_mem _ _ _ _ hfs
        have hval : seat ∈ pool.filter fun s => !na || seatAdjustable s :=
          ((hsh _ _).mem_iff).mp hseat
        have hp := (List.mem_filter.mp hval).2
        rw [hna] at hp
        simpa using hp

/-- Over one sub-group pass, every placed seat belongs to the pool,
provided that held before the pass. -/
theorem pass_pool (shuffle : Nat → List String → List String) (pool : List String)
    (na : Bool) (hsh : ∀ n l, (shuffle n l).Perm l) :
    ∀ (group : List Person) (st : AState),
      (∀ x ∈ st.placed, x.2 ∈ pool) →
      ∀ x ∈ (group.foldl (placeOne shuffle pool na) st).placed, x.2 ∈ pool := by
  intro group
  induction group with
  | nil => intro st hst; simpa using hst
  | cons stu rest ih =>
    intro st hst
    rw [List.foldl_cons]
    refine ih (placeOne shuffle pool na st stu) ?_
    intro x hx
    cases hfs : findSeat stu.beginTime st.avail
        (shuffle st.ctr (pool.filter fun s => !na || seatAdjustable s)) with
    | none =>
      rw [placeOne_of_none hfs] at hx
      exact hst x hx
    | some seat =>
      rw [placeOne_of_some hfs] at hx
      simp only [List.mem_append, List.mem_singleton] at hx
      rcases hx with hx | hx
      · exact hst x hx
      · subst hx
        have hseat : seat ∈ shuffle st.ctr (pool.filter fun s => !na || seatAdjustable s) :=
          findSeat_mem _ _ _ _ hfs
        have hval : seat ∈ pool.filter fun s => !na || seatAdjustable s :=
          ((hsh _ _).mem_iff).mp hseat
        exact (List.mem_filter.mp hval).1

/-- Over one sub-group pass, the placed-plus-unplaced rows grow by exactly
the processed group, as a permutation. -/
theorem pass_perm (shuffle : Nat → List String → List String) (pool : List String)
    (na : Bool) :
    ∀ (group : List Person) (st : AState),
      ((group.foldl (placeOne shuffle pool na) st).placed.map Prod.fst
        ++ (group.foldl (placeOne shuffle pool na) st).left).Perm
        ((st.placed.map Prod.fst ++ st.left) ++ group) := by
  intro group
  induction group with
  | nil => intro st; simp
  | cons stu rest ih =>
    intro st
    rw [List.foldl_cons]
    refine (ih (placeOne shuffle pool na st stu)).trans ?_
    have hstep : ((placeOne shuffle pool na st stu).placed.map Prod.fst
        ++ (placeOne shuffle pool na st stu).left).Perm
        ((st.placed.map Prod.fst ++ st.left) ++ [stu]) := by
      cases hfs : findSeat stu.beginTime st.avail
          (shuffle st.ctr (pool.filter fun s => !na || seatAdjustable s)) with
      | some seat =>
        rw [placeOne_of_some hfs]
        simp only [List.map_append, List.map_cons, List.map_nil]
        rw [List.append_assoc, List.append_assoc]
        exact List.Perm.append_left _ List.perm_append_comm
      | none =>
        rw [placeOne_of_none hfs]
        simp [List.append_assoc]
    refine (hstep.append_right rest).trans ?_
    simp [List.append_assoc]

/-- Over one sub-group pass, every placement ends no later than the next-free
time of its seat, and placements on one seat stay chronologically disjoint,
provided every person of the group has begin at most end. -/
theorem pass_noOverlap (shuffle : Nat → List String → List String) (pool : List String)
    (na : Bool) :
    ∀ (group : List Person) (st : AState),
      (∀ p ∈ group, p.beginTime ≤ p.endTime) →
      (∀ x ∈ st.placed, x.1.endTime ≤ st.avail x.2) →
      List.Pairwise (fun x y => x.2 = y.2 → x.1.endTime ≤ y.1.beginTime) st.placed →
      (∀ x ∈ (group.foldl (placeOne shuffle pool na) st).placed,
          x.1.endTime ≤ (group.foldl (placeOne shuffle pool na) st).avail x.2)
        ∧ List.Pairwise (fun x y => x.2 = y.2 → x.1.endTime ≤ y.1.beginTime)
            (group.foldl (placeOne shuffle pool na) st).placed := by
  intro group
  induction group with
  | nil => intro st _ hA hB; exact ⟨hA, hB⟩
  | cons stu rest ih =>
    intro st hwf hA hB
    rw [List.foldl_cons]
    have hwstu : stu.beginTime ≤ stu.endTime := hwf stu (List.mem_cons_self _ _)
    refine ih (placeOne shuffle pool na st stu)
      (fun p hp => hwf p (List.mem_cons_of_mem _ hp)) ?_ ?_
    · intro x hx
      cases hfs : findSeat stu.beginTime st.avail
          (shuffle st.ctr (pool.filter fun s => !na || seatAdjustable s)) with
      | none =>
        rw [placeOne_of_none hfs] at hx ⊢
        exact hA x hx
      | some seat =>
        have havle : st.avail seat ≤ stu.beginTime := findSeat_le _ _ _ _ hfs
        rw [placeOne_of_some hfs] at hx ⊢
        simp only [List.mem_append, List.mem_singleton] at hx
        rcases hx with hx | hx
        · by_cases hseat : x.2 = seat
          · have hxe : x.1.endTime ≤ st.avail seat := hseat ▸ hA x hx
            simp only [hseat, if_pos]
            omega
          · simp only [if_neg hseat]
            exact hA x hx
        · subst hx
          simp
    · cases hfs : findSeat stu.beginTime st.avail
          (shuffle st.ctr (pool.filter fun s => !na || seatAdjustable s)) with
      | none =>
        rw [placeOne_of_none hfs]
        exact hB
      | some seat =>
        have havle : st.avail seat ≤ stu.beginTime := findSeat_le _ _ _ _ hfs
        rw [placeOne_of_some hfs]
        refine List.pairwise_append.mpr ⟨hB, by simp, ?_⟩
        intro x hx y hy
        simp only [List.mem_singleton] at hy
        subst hy
        intro hxy
        have hxy2 : x.2 = seat := hxy
        have hxe : x.1.endTime ≤ st.avail seat := hxy2 ▸ hA x hx
        show x.1.endTime ≤ stu.beginTime
        omega

/-! The claim theorems. -/

/-- C4: in every call to the scheduler, every person whose requires-adjustable
flag is true who ends up placed is placed on a seat whose adjustable flag is
true; the hypothesis states that each shuffle outcome is a permutation of the
candidate list, which is what numpy rng.shuffle produces. -/
theorem C4_adjustable_respected (shuffle : Nat → List String → List String)
    (df : List Person) (pool : List String)
    (hsh : ∀ n l, (shuffle n l).Perm l) :
    ∀ x ∈ (assign_students shuffle df pool).1,
      x.1.requiresAdjustable = true → seatAdjustable x.2 = true := by
  simp only [assign_students]
  refine pass_adjOK shuffle pool false hsh _ _ ?_ ?_
  · intro p hp
    have hp2 := (List.mem_filter.mp (mem_sortByBegin.mp hp)).2
    simpa using hp2
  · refine pass_adjOK shuffle pool true hsh _ _ ?_ ?_
    · intro p hp
      exact (List.mem_filter.mp (mem_sortByBegin.mp hp)).2
    · intro x hx
      simp at hx

/-- C10: the placed and unplaced outputs of one scheduler call partition the
input cohort (as a multiset: nobody is dropped or duplicated), and every
placed record carries a seat drawn from the given pool. -/
theorem C10_scheduler_partition (shuffle : Nat → List String → List String)
    (df : List Person) (pool : List String)
    (hsh : ∀ n l, (shuffle n l).Perm l) :
    ((assign_students shuffle df pool).1.map Prod.fst
      ++ (assign_students shuffle df pool).2).Perm df
    ∧ ∀ x ∈ (assign_students shuffle df pool).1, x.2 ∈ pool := by
  constructor
  · simp only [assign_students]
    refine (pass_perm shuffle pool false _ _).trans ?_
    refine (List.Perm.append_right _ (pass_perm shuffle pool true _ _)).trans ?_
    have hbase : ((((⟨fun _ => timeMin, [], [], 0⟩ : AState).placed.map Prod.fst
        ++ (⟨fun _ => timeMin, [], [], 0⟩ : AState).left))
        ++ sortByBegin (df.filter fun p => p.requiresAdjustable))
        = sortByBegin (df.filter fun p => p.requiresAdjustable) := by simp
    rw [hbase]
    refine (List.Perm.append (List.perm_insertionSort _ _)
      (List.perm_insertionSort _ _)).trans ?_
    exact List.filter_append_perm _ df
  · simp only [assign_students]
    refine pass_pool shuffle pool false hsh _ _ ?_
    refine pass_pool shuffle pool true hsh _ _ ?_
    intro x hx
    simp at hx

/-- C1 (amended): within one scheduler call whose persons all have begin at
most end, the placements on any one seat are chronologically ordered, each
beginning at or after the previous end, hence no seat is occupied by two
persons with overlapping half-open intervals inside a single call.  The
original cross-run claim is refuted by C1_shared_pool_double_book. -/
theorem C1_amended_no_overlap_within_call (shuffle : Nat → List String → List String)
    (df : List Person) (pool : List String)
    (hwf : ∀ p ∈ df, p.beginTime ≤ p.endTime) :
    List.Pairwise (fun x y => x.2 = y.2 → x.1.endTime ≤ y.1.beginTime)
        (assign_students shuffle df pool).1
    ∧ List.Pairwise (fun x y => x.2 = y.2 →
        ¬(x.1.beginTime < y.1.endTime ∧ y.1.beginTime < x.1.endTime))
        (assign_students shuffle df pool).1 := by
  have hchain : List.Pairwise (fun x y => x.2 = y.2 → x.1.endTime ≤ y.1.beginTime)
      (assign_students shuffle df pool).1 := by
    simp only [assign_students]
    have hg1 : ∀ p ∈ sortByBegin (df.filter fun p => p.requiresAdjustable),
        p.beginTime ≤ p.endTime := by
      intro p hp
      exact hwf p (List.mem_filter.mp (mem_sortByBegin.mp hp)).1
    have hg2 : ∀ p ∈ sortByBegin (df.filter fun p => !p.requiresAdjustable),
        p.beginTime ≤ p.endTime := by
      intro p hp
      exact hwf p (List.mem_filter.mp (mem_sortByBegin.mp hp)).1
    have h1 := pass_noOverlap shuffle pool true _ ⟨fun _ => timeMin, [], [], 0⟩ hg1
      (by intro x hx; simp at hx) (by simp)
    have h2 := pass_noOverlap shuffle pool false _ _ hg2 h1.1 h1.2
    exact h2.2
  refine ⟨hchain, hchain.imp ?_⟩
  intro a b h hab
  have hle := h hab
  omega

/-- Unfolding equation for the writes trace of one guard-loop iteration. -/
theorem processCohort_writes (shuffle : Nat → Nat → List String → List String)
    (i : Nat) (st : RunState) (part : List Person) (pool : List String) :
    (processCohort shuffle i st part pool).writes
      = st.writes ++ ((assign_students (shuffle i) part pool).1.filter
          fun x => !decide (x.1.studentNumber ∈ st.seen)).map fun x => (i, x.2, x.1) := rfl

/-- Unfolding equation for the seen set of one guard-loop iteration. -/
theorem processCohort_seen (shuffle : Nat → Nat → List String → List String)
    (i : Nat) (st : RunState) (part : List Person) (pool : List String) :
    (processCohort shuffle i st part pool).seen
      = st.seen ++ ((assign_students (shuffle i) part pool).1.filter
          fun x => !decide (x.1.studentNumber ∈ st.seen)).map
            fun x => x.1.studentNumber := rfl

/-- Invariants of the guard loop: write indices stay below the running pass
counter, each written student number is in the seen set, and writes of two
different passes never carry the same student number. -/
theorem runCohorts_writes_inv (shuffle : Nat → Nat → List String → List String) :
    ∀ (cohorts : List (List Person × List String)) (i : Nat) (st : RunState),
      (∀ w ∈ st.writes, w.1 < i) →
      (∀ w ∈ st.writes, w.2.2.studentNumber ∈ st.seen) →
      (∀ w ∈ st.writes, ∀ w2 ∈ st.writes, w.1 ≠ w2.1 →
        w.2.2.studentNumber ≠ w2.2.2.studentNumber) →
      ((∀ w ∈ (runCohorts shuffle i st cohorts).writes, w.1 < i + cohorts.length)
        ∧ (∀ w ∈ (runCohorts shuffle i st cohorts).writes,
            w.2.2.studentNumber ∈ (runCohorts shuffle i st cohorts).seen)
        ∧ (∀ w ∈ (runCohorts shuffle i st cohorts).writes,
            ∀ w2 ∈ (runCohorts shuffle i st cohorts).writes, w.1 ≠ w2.1 →
              w.2.2.studentNumber ≠ w2.2.2.studentNumber)) := by
  intro cohorts
  induction cohorts with
  | nil =>
    intro i st h1 h2 h3
    refine ⟨fun w hw => ?_, h2, h3⟩
    have := h1 w hw
    simpa using Nat.lt_of_lt_of_le this (Nat.le_add_right i 0)
  | cons c rest ih =>
    intro i st h1 h2 h3
    obtain ⟨part, pool⟩ := c
    rw [runCohorts]
    have hnew : ∀ w ∈ ((assign_students (shuffle i) part pool).1.filter
        fun x => !decide (x.1.studentNumber ∈ st.seen)).map (fun x => (i, x.2, x.1)),
        w.1 = i ∧ w.2.2.studentNumber ∉ st.seen := by
      intro w hw
      obtain ⟨x, hx, rfl⟩ := List.mem_map.mp hw
      refine ⟨rfl, ?_⟩
      have hfil := (List.mem_filter.mp hx).2
      simpa using hfil
    have inv1 : ∀ w ∈ (processCohort shuffle i st part pool).writes, w.1 < i + 1 := by
      intro w hw
      rw [processCohort_writes] at hw
      rcases List.mem_append.mp hw with hw | hw
      · have := h1 w hw; omega
      · have := (hnew w hw).1; omega
    have inv2 : ∀ w ∈ (processCohort shuffle i st part pool).writes,
        w.2.2.studentNumber ∈ (processCohort shuffle i st part pool).seen := by
      intro w hw
      rw [processCohort_writes] at hw
      rw [processCohort_seen]
      rcases List.mem_append.mp hw with hw | hw
      · exact List.mem_append_left _ (h2 w hw)
      · obtain ⟨x, hx, rfl⟩ := List.mem_map.mp hw
        exact List.mem_append_right _ (List.mem_map.mpr ⟨x, hx, rfl⟩)
    have inv3 : ∀ w ∈ (processCohort shuffle i st part pool).writes,
        ∀ w2 ∈ (processCohort shuffle i st part pool).writes, w.1 ≠ w2.1 →
          w.2.2.studentNumber ≠ w2.2.2.studentNumber := by
      intro w hw w2 hw2 hne
      rw [processCohort_writes] at hw hw2
      rcases List.mem_append.mp hw with hw | hw <;>
        rcases List.mem_append.mp hw2 with hw2 | hw2
      · exact h3 w hw w2 hw2 hne
      · have hseen := h2 w hw
        have hnotseen := (hnew w2 hw2).2
        intro heq
        rw [heq] at hseen
        exact hnotseen hseen
      · have hseen := h2 w2 hw2
        have hnotseen := (hnew w hw).2
        intro heq
        rw [← heq] at hseen
        exact hnotseen hseen
      · exact absurd ((hnew w hw).1.trans (hnew w2 hw2).1.symm) hne
    obtain ⟨a, b, c⟩ := ih (i + 1) (processCohort shuffle i st part pool) inv1 inv2 inv3
    refine ⟨fun w hw => ?_, b, c⟩
    have := a w hw
    simp only [List.length_cons]
    omega

/-- An entry of a dict built by repeated dinsert is an original entry or one
of the inserted (room, person) pairs. -/
theorem mem_foldl_dinsert :
    ∀ (xs : List (Person × String)) (m : List (String × Person)) (kv : String × Person),
      kv ∈ xs.foldl (fun m x => dinsert m x.2 x.1) m →
      kv ∈ m ∨ ∃ x ∈ xs, kv = (x.2, x.1) := by
  intro xs
  induction xs with
  | nil => intro m kv h; exact Or.inl h
  | cons x rest ih =>
    intro m kv h
    rw [List.foldl_cons] at h
    rcases ih (dinsert m x.2 x.1) kv h with h1 | h2
    · rw [dinsert] at h1
      rcases List.mem_append.mp h1 with ha | hb
      · exact Or.inl (List.mem_filter.mp ha).1
      · simp only [List.mem_singleton] at hb
        exact Or.inr ⟨x, List.mem_cons_self _ _, hb⟩
    · obtain ⟨y, hy, hkv⟩ := h2
      exact Or.inr ⟨y, List.mem_cons_of_mem _ hy, hkv⟩

/-- Unfolding equation for the assigns dict of one guard-loop iteration. -/
theorem processCohort_assigns (shuffle : Nat → Nat → List String → List String)
    (i : Nat) (st : RunState) (part : List Person) (pool : List String) :
    (processCohort shuffle i st part pool).assigns
      = ((assign_students (shuffle i) part pool).1.filter
          fun x => !decide (x.1.studentNumber ∈ st.seen)).foldl
            (fun m x => dinsert m x.2 x.1) st.assigns := rfl

/-- Every entry of the assigns ledger of the guard loop originates from some
recorded ledger write. -/
theorem runCohorts_assigns_from_writes (shuffle : Nat → Nat → List String → List String) :
    ∀ (cohorts : List (List Person × List String)) (i : Nat) (st : RunState),
      (∀ kv ∈ st.assigns, ∃ j, (j, kv.1, kv.2) ∈ st.writes) →
      ∀ kv ∈ (runCohorts shuffle i st cohorts).assigns,
        ∃ j, (j, kv.1, kv.2) ∈ (runCohorts shuffle i st cohorts).writes := by
  intro cohorts
  induction cohorts with
  | nil => intro i st h; exact h
  | cons c rest ih =>
    intro i st h
    obtain ⟨part, pool⟩ := c
    rw [runCohorts]
    refine ih (i + 1) (processCohort shuffle i st part pool) ?_
    intro kv hkv
    rw [processCohort_assigns] at hkv
    rw [processCohort_writes]
    rcases mem_foldl_dinsert _ _ _ hkv with hold | hnew
    · obtain ⟨j, hj⟩ := h kv hold
      exact ⟨j, List.mem_append_left _ hj⟩
    · obtain ⟨x, hx, hkv2⟩ := hnew
      subst hkv2
      exact ⟨i, List.mem_append_right _ (List.mem_map.mpr ⟨x, hx, rfl⟩)⟩

/-- C2 (amended): across two different cohort passes of one run, the guard
never lets the same student number be written to the ledger twice: writes
of different passes carry different student numbers, every entry of the
final Ledger stems from some pass's write, and hence two final-Ledger
entries sharing a student number can only come from one and the same cohort
pass.  Two roster rows bearing the same student number inside a single
cohort pass can still each be granted a seat, which C2_dup_rows_two_seats
exhibits. -/
theorem C2_amended_cross_cohort_unique (prefs : RoomPrefs)
    (shuffle : Nat → Nat → List String → List String) (raw : List RawRow) :
    (∀ w ∈ (mainAssign prefs shuffle raw).writes,
      ∀ w2 ∈ (mainAssign prefs shuffle raw).writes,
        w.1 ≠ w2.1 → w.2.2.studentNumber ≠ w2.2.2.studentNumber)
    ∧ (∀ kv ∈ (mainAssign prefs shuffle raw).assigns,
        ∃ j, (j, kv.1, kv.2) ∈ (mainAssign prefs shuffle raw).writes)
    ∧ (∀ kv1 ∈ (mainAssign prefs shuffle raw).assigns,
        ∀ kv2 ∈ (mainAssign prefs shuffle raw).assigns,
          kv1.2.studentNumber = kv2.2.studentNumber →
          ∃ j, (j, kv1.1, kv1.2) ∈ (mainAssign prefs shuffle raw).writes
            ∧ (j, kv2.1, kv2.2) ∈ (mainAssign prefs shuffle raw).writes) := by
  have hw := runCohorts_writes_inv shuffle
    (cohortSeq prefs (buildCohorts prefs (raw.map read_source_row))) 0 ⟨[], [], []⟩
    (by intro w hw; simp at hw) (by intro w hw; simp at hw)
    (by intro w hw; simp at hw)
  have ha := runCohorts_assigns_from_writes shuffle
    (cohortSeq prefs (buildCohorts prefs (raw.map read_source_row))) 0 ⟨[], [], []⟩
    (by intro kv hkv; simp at hkv)
  refine ⟨hw.2.2, ha, ?_⟩
  intro kv1 h1 kv2 h2 heq
  obtain ⟨j1, hj1⟩ := ha kv1 h1
  obtain ⟨j2, hj2⟩ := ha kv2 h2
  by_cases hj : j1 = j2
  · exact ⟨j1, hj1, hj ▸ hj2⟩
  · exact absurd heq (hw.2.2 _ hj1 _ hj2 hj)

/-- One step of the sequential-removal argument: a filtered-off layer plus
anything permuting to the rest of the layer rebuilds the layer. -/
theorem filter_split_perm {α : Type} (p : α → Bool) (l : List α) {t : List α}
    (ht : t.Perm (l.filter fun x => !p x)) : (l.filter p ++ t).Perm l :=
  (List.Perm.append_left _ ht).trans (List.filter_append_perm p l)

/-- C3: for every roster and every preference setting, the nine cohorts of
the sequential classifier are a total, disjoint partition of the roster:
their concatenation is a permutation of it, so every row occurs in the
cohorts exactly as often as in the roster. -/
theorem C3_partition_total_disjoint (prefs : RoomPrefs) (df : List Person) :
    ((buildCohorts prefs df).DF1_PR ++ (buildCohorts prefs df).DF2_WS ++
      (buildCohorts prefs df).DF3_HAD ++ (buildCohorts prefs df).DF4_SCRIBE ++
      (buildCohorts prefs df).DF6_FINAL ++ (buildCohorts prefs df).DF7_ES ++
      (buildCohorts prefs df).DF8_SAS ++ (buildCohorts prefs df).DF5_MAIN ++
      (buildCohorts prefs df).DF9_CLASSROOMS).Perm df
    ∧ ∀ p : Person,
        ((buildCohorts prefs df).DF1_PR ++ (buildCohorts prefs df).DF2_WS ++
          (buildCohorts prefs df).DF3_HAD ++ (buildCohorts prefs df).DF4_SCRIBE ++
          (buildCohorts prefs df).DF6_FINAL ++ (buildCohorts prefs df).DF7_ES ++
          (buildCohorts prefs df).DF8_SAS ++ (buildCohorts prefs df).DF5_MAIN ++
          (buildCohorts prefs df).DF9_CLASSROOMS).count p = df.count p := by
  have hperm : ((buildCohorts prefs df).DF1_PR ++ (buildCohorts prefs df).DF2_WS ++
      (buildCohorts prefs df).DF3_HAD ++ (buildCohorts prefs df).DF4_SCRIBE ++
      (buildCohorts prefs df).DF6_FINAL ++ (buildCohorts prefs df).DF7_ES ++
      (buildCohorts prefs df).DF8_SAS ++ (buildCohorts prefs df).DF5_MAIN ++
      (buildCohorts prefs df).DF9_CLASSROOMS).Perm df := by
    by_cases hs : prefs.sas_offices = true
    · simp only [buildCohorts, hs, if_pos, List.append_assoc, List.append_nil]
      refine filter_split_perm pr_mask df ?_
      refine filter_split_perm ws_mask _ ?_
      refine filter_split_perm (fun q : Person => q.requiresAdjustable) _ ?_
      refine filter_split_perm scribe_mask _ ?_
      refine filter_split_perm final_mask _ ?_
      refine filter_split_perm es_mask _ ?_
      exact filter_split_perm sas_mask _ (List.Perm.refl _)
    · simp only [buildCohorts, hs, if_neg, if_false, List.append_assoc,
        List.append_nil, List.nil_append]
      refine filter_split_perm pr_mask df ?_
      refine filter_split_perm ws_mask _ ?_
      refine filter_split_perm (fun q : Person => q.requiresAdjustable) _ ?_
      refine filter_split_perm scribe_mask _ ?_
      refine filter_split_perm final_mask _ ?_
      exact filter_split_perm es_mask _ (List.Perm.refl _)
  exact ⟨hperm, fun p => hperm.count_eq p⟩

/-- C8 (amended): the evening-student rule selects exactly the
still-unclassified persons whose end time falls inside the 22nd hour (its
hour component equals 22, covering 22:00 up to 22:59) and whose begin time
strictly precedes the reference class time.  The original reading that the
end time must equal 22:00 exactly is refuted by
C8_hour_window_counterexample. -/
theorem C8_amended_evening_rule (prefs : RoomPrefs) (df : List Person) (p : Person) :
    p ∈ (buildCohorts prefs df).DF7_ES ↔
      p ∈ df ∧ pr_mask p = false ∧ ws_mask p = false ∧
        p.requiresAdjustable = false ∧ scribe_mask p = false ∧
        final_mask p = false ∧ p.endTime / 60 = 22 ∧ p.beginTime < p.classTime := by
  simp only [buildCohorts]
  simp only [List.mem_filter, es_mask, Bool.and_eq_true, beq_iff_eq,
    decide_eq_true_eq, Bool.not_eq_true']
  tauto

/-- C7: during ingestion every missing or unparseable time value of the three
time-like columns is coerced to the sentinel minimum time, a parsed value is
kept as is, ingestion is a total function that never aborts, and the sentinel
is below every time, so a coerced person compares like any other. -/
theorem C7_time_coercion_sentinel (r : RawRow) :
    ((r.beginTimeRaw = none → (read_source_row r).beginTime = timeMin)
      ∧ (r.endTimeRaw = none → (read_source_row r).endTime = timeMin)
      ∧ (r.classTimeRaw = none → (read_source_row r).classTime = timeMin))
    ∧ ((∀ t : Nat, r.beginTimeRaw = some t → (read_source_row r).beginTime = t)
      ∧ (∀ t : Nat, r.endTimeRaw = some t → (read_source_row r).endTime = t)
      ∧ (∀ t : Nat, r.classTimeRaw = some t → (read_source_row r).classTime = t))
    ∧ (∀ t : Nat, timeMin ≤ t) := by
  refine ⟨⟨?_, ?_, ?_⟩, ⟨?_, ?_, ?_⟩, fun t => Nat.zero_le t⟩
  · intro h; simp [read_source_row, coerceTime, h]
  · intro h; simp [read_source_row, coerceTime, h]
  · intro h; simp [read_source_row, coerceTime, h]
  · intro t h; simp [read_source_row, coerceTime, h]
  · intro t h; simp [read_source_row, coerceTime, h]
  · intro t h; simp [read_source_row, coerceTime, h]

/-- C9: for a resource id absent from the seat catalogue, export degrades
gracefully instead of crashing: the seat type falls back to the regular
kind and the seat-number cell falls back to the number parsed out of the id
text, staying unwritten when that parse also fails. -/
theorem C9_unknown_id_fallback (room : String) (h : SEATS.lookup room = none) :
    seatTypeOf room = SeatType.reg ∧ seatNumberCell room = parseSeatNum room := by
  constructor
  · simp [seatTypeOf, h]
  · simp [seatNumberCell, h]

/-- C6: the admission rule is boundary-inclusive greedy first-fit.  First,
the candidate scan returns exactly the first candidate whose next-free time
is at most the begin time.  Second, a successful placement appends the
chosen seat and advances its next-free time to the end time, while a failed
scan records the person as unplaced, never an error.  Third, two persons
with back-to-back intervals are both placed on the same single seat. -/
theorem C6_first_fit_boundary_inclusive :
    (∀ (b : Nat) (avail : String → Nat) (l : List String) (s : String),
        findSeat b avail l = some s ↔
          ∃ l1 l2, l = l1 ++ s :: l2 ∧ avail s ≤ b ∧ ∀ t ∈ l1, b < avail t)
    ∧ (∀ (shuffle : Nat → List String → List String) (pool : List String) (na : Bool)
          (st : AState) (stu : Person),
        (findSeat stu.beginTime st.avail
            (shuffle st.ctr (pool.filter fun s => !na || seatAdjustable s)) = none →
          placeOne shuffle pool na st stu
            = { st with left := st.left ++ [stu], ctr := st.ctr + 1 })
        ∧ ∀ seat : String, findSeat stu.beginTime st.avail
            (shuffle st.ctr (pool.filter fun s => !na || seatAdjustable s)) = some seat →
          (placeOne shuffle pool na st stu).placed = st.placed ++ [(stu, seat)]
            ∧ (placeOne shuffle pool na st stu).avail seat = stu.endTime)
    ∧ (∀ (shuffle : Nat → List String → List String) (A : String) (p1 p2 : Person),
        (∀ n l, (shuffle n l).Perm l) →
        p1.requiresAdjustable = false → p2.requiresAdjustable = false →
        p1.beginTime < p1.endTime → p2.beginTime = p1.endTime →
        assign_students shuffle [p1, p2] [A] = ([(p1, A), (p2, A)], [])) := by
  refine ⟨findSeat_eq_some_iff, ?_, ?_⟩
  · intro shuffle pool na st stu
    constructor
    · intro h
      exact placeOne_of_none h
    · intro seat h
      rw [placeOne_of_some h]
      exact ⟨rfl, by simp⟩
  · intro shuffle A p1 p2 hsh h1 h2 hlt heq
    have hs0 : shuffle 0 [A] = [A] := List.perm_singleton.mp (hsh 0 [A])
    have hs1 : shuffle 1 [A] = [A] := List.perm_singleton.mp (hsh 1 [A])
    have hble : p1.beginTime ≤ p2.beginTime := by omega
    have hf1 : ([p1, p2].filter fun p => p.requiresAdjustable) = [] := by
      simp [h1, h2]
    have hf2 : ([p1, p2].filter fun p => !p.requiresAdjustable) = [p1, p2] := by
      simp [h1, h2]
    have hsort : sortByBegin [p1, p2] = [p1, p2] := by
      simp [sortByBegin, List.insertionSort, List.orderedInsert, hble]
    have hnil : sortByBegin ([] : List Person) = [] := rfl
    have hok : p1.endTime ≤ p2.beginTime := by omega
    simp only [assign_students]
    rw [hf1, hf2, hnil, hsort]
    simp [List.foldl_cons, List.foldl_nil, placeOne, hs0, hs1, findSeat, timeMin, hok]

/-- C5: given two adjustable-requiring persons with overlapping windows and
a pool holding exactly one adjustable seat, the person with the earlier
begin time is placed on that seat and the other is unplaced, never the
reverse, whichever order the two arrive in; this follows from the
adjustable-first sub-grouping and begin-time ordering of the scheduler. -/
theorem C5_earlier_begin_wins (shuffle : Nat → List String → List String)
    (pool : List String) (s : String) (p1 p2 : Person) (df : List Person)
    (hsh : ∀ n l, (shuffle n l).Perm l)
    (h1 : p1.requiresAdjustable = true) (h2 : p2.requiresAdjustable = true)
    (hb : p1.beginTime < p2.beginTime) (hov : p2.beginTime < p1.endTime)
    (hpool : pool.filter seatAdjustable = [s])
    (hdf : df = [p1, p2] ∨ df = [p2, p1]) :
    assign_students shuffle df pool = ([(p1, s)], [p2]) := by
  have hs0 : shuffle 0 [s] = [s] := List.perm_singleton.mp (hsh 0 [s])
  have hs1 : shuffle 1 [s] = [s] := List.perm_singleton.mp (hsh 1 [s])
  have hble : p1.beginTime ≤ p2.beginTime := by omega
  have hnb : ¬(p2.beginTime ≤ p1.beginTime) := by omega
  have hno : ¬(p1.endTime ≤ p2.beginTime) := by omega
  have hnil : sortByBegin ([] : List Person) = [] := rfl
  rcases hdf with rfl | rfl
  · have hf1 : ([p1, p2].filter fun p => p.requiresAdjustable) = [p1, p2] := by
      simp [h1, h2]
    have hf2 : ([p1, p2].filter fun p => !p.requiresAdjustable) = [] := by
      simp [h1, h2]
    have hsort : sortByBegin [p1, p2] = [p1, p2] := by
      simp [sortByBegin, List.insertionSort, List.orderedInsert, hble]
    simp only [assign_students]
    rw [hf1, hf2, hnil, hsort]
    simp [List.foldl_cons, List.foldl_nil, placeOne, hpool, hs0, hs1, findSeat,
      timeMin, hno]
  · have hf1 : ([p2, p1].filter fun p => p.requiresAdjustable) = [p2, p1] := by
      simp [h1, h2]
    have hf2 : ([p2, p1].filter fun p => !p.requiresAdjustable) = [] := by
      simp [h1, h2]
    have hsort : sortByBegin [p2, p1] = [p1, p2] := by
      simp [sortByBegin, List.insertionSort, List.orderedInsert, hnb]
    simp only [assign_students]
    rw [hf1, hf2, hnil, hsort]
    simp [List.foldl_cons, List.foldl_nil, placeOne, hpool, hs0, hs1, findSeat,
      timeMin, hno]

/-! Counterexamples refuting the original readings of C1, C2 and C8, and
witnesses instantiating the hypothesis-bearing theorems. -/

/-- C1 counterexample: with only regular seats enabled, the adjustable pool
and the regular pool both contain Seat 13; one whole run then writes
Seat 13 to the ledger twice, for two persons whose [540, 660) intervals
coincide, refuting both the at-most-once and the no-overlap reading across
cohort passes. -/
theorem C1_shared_pool_double_book :
    ((mainAssign cePrefs ceShuffle ceRoster).writes.map
        fun w => (w.2.1, w.2.2.beginTime, w.2.2.endTime))
      = [("Seat 13", 540, 660), ("Seat 13", 540, 660)]
    ∧ (540 : Nat) < 660 := by
  constructor
  · decide
  · decide

/-- C1 witness: applying the amended per-call theorem to a concrete call. -/
theorem C1_no_overlap_witness :
    (∀ p ∈ [pPlain1, pPlain2], p.beginTime ≤ p.endTime)
    ∧ (List.Pairwise (fun x y => x.2 = y.2 → x.1.endTime ≤ y.1.beginTime)
        (assign_students wShuffle [pPlain1, pPlain2] ["Seat 1"]).1
      ∧ List.Pairwise (fun x y => x.2 = y.2 →
          ¬(x.1.beginTime < y.1.endTime ∧ y.1.beginTime < x.1.endTime))
        (assign_students wShuffle [pPlain1, pPlain2] ["Seat 1"]).1) :=
  ⟨by decide,
   C1_amended_no_overlap_within_call wShuffle [pPlain1, pPlain2] ["Seat 1"] (by decide)⟩

/-- C2 counterexample: two roster rows with the same student number inside a
single cohort are both granted seats, so the final ledger maps two different
resource ids to student number 7, refuting the claim for the intra-cohort
case. -/
theorem C2_dup_rows_two_seats :
    ((mainAssign cePrefs idShuffle ce2Roster).assigns.map
        fun kv => (kv.1, kv.2.studentNumber))
      = [("Seat 1", 7), ("Seat 2", 7)]
    ∧ ("Seat 1" : String) ≠ "Seat 2" := by
  constructor
  · decide
  · decide

/-- C2 witness: the amended cross-pass theorem applied to the run of
ceRoster, whose two ledger writes come from passes 0 and 1. -/
theorem C2_cross_cohort_witness :
    ((0, "Seat 13", pHadP) ∈ (mainAssign cePrefs ceShuffle ceRoster).writes
      ∧ (1, "Seat 13", pMainP) ∈ (mainAssign cePrefs ceShuffle ceRoster).writes
      ∧ (0 : Nat) ≠ 1)
    ∧ pHadP.studentNumber ≠ pMainP.studentNumber :=
  ⟨⟨by decide, by decide, by decide⟩,
   (C2_amended_cross_cohort_unique cePrefs ceShuffle ceRoster).1
     (0, "Seat 13", pHadP) (by decide) (1, "Seat 13", pMainP) (by decide) (by decide)⟩

/-- C4 witness: the adjustable-respected theorem at a concrete call. -/
theorem C4_adjustable_witness :
    (∀ n l, (wShuffle n l).Perm l)
    ∧ ∀ x ∈ (assign_students wShuffle [pAdjW] ["Seat 13"]).1,
        x.1.requiresAdjustable = true → seatAdjustable x.2 = true :=
  ⟨fun _ l => List.Perm.refl l,
   C4_adjustable_respected wShuffle [pAdjW] ["Seat 13"] (fun _ l => List.Perm.refl l)⟩

/-- C5 witness: the priority theorem at two concrete adjustable-requiring
persons and a pool with one adjustable seat. -/
theorem C5_earlier_begin_witness :
    ((∀ n l, (wShuffle n l).Perm l)
      ∧ pAdjW.requiresAdjustable = true ∧ pAdjW2.requiresAdjustable = true
      ∧ pAdjW.beginTime < pAdjW2.beginTime ∧ pAdjW2.beginTime < pAdjW.endTime
      ∧ ["Seat 1", "Seat 13"].filter seatAdjustable = ["Seat 13"])
    ∧ assign_students wShuffle [pAdjW, pAdjW2] ["Seat 1", "Seat 13"]
        = ([(pAdjW, "Seat 13")], [pAdjW2]) :=
  ⟨⟨fun _ l => List.Perm.refl l, by decide, by decide, by decide, by decide, by decide⟩,
   C5_earlier_begin_wins wShuffle ["Seat 1", "Seat 13"] "Seat 13" pAdjW pAdjW2
     [pAdjW, pAdjW2] (fun _ l => List.Perm.refl l) (by decide) (by decide) (by decide)
     (by decide) (by decide) (Or.inl rfl)⟩

/-- C6 witness: the back-to-back conjunct of the first-fit theorem at two
concrete persons on a single workstation. -/
theorem C6_first_fit_witness :
    ((∀ n l, (wShuffle n l).Perm l)
      ∧ pPlain1.requiresAdjustable = false ∧ pPlain2.requiresAdjustable = false
      ∧ pPlain1.beginTime < pPlain1.endTime ∧ pPlain2.beginTime = pPlain1.endTime)
    ∧ assign_students wShuffle [pPlain1, pPlain2] ["WS 1"]
        = ([(pPlain1, "WS 1"), (pPlain2, "WS 1")], []) :=
  ⟨⟨fun _ l => List.Perm.refl l, by decide, by decide, by decide, by decide⟩,
   C6_first_fit_boundary_inclusive.2.2 wShuffle "WS 1" pPlain1 pPlain2
     (fun _ l => List.Perm.refl l) (by decide) (by decide) (by decide) (by decide)⟩

/-- C7 witness: a row with all three time cells missing ingests to the
sentinel in each field. -/
theorem C7_time_coercion_witness :
    (read_source_row rowNoTimes).beginTime = timeMin
      ∧ (read_source_row rowNoTimes).endTime = timeMin
      ∧ (read_source_row rowNoTimes).classTime = timeMin :=
  ⟨(C7_time_coercion_sentinel rowNoTimes).1.1 rfl,
   (C7_time_coercion_sentinel rowNoTimes).1.2.1 rfl,
   (C7_time_coercion_sentinel rowNoTimes).1.2.2 rfl⟩

/-- C8 counterexample: a person ending at 22:30 is selected by the
evening-student rule although that end time does not equal 22:00, refuting
the equality reading of the late-hour boundary. -/
theorem C8_hour_window_counterexample :
    (buildCohorts prefsAll [pEvening]).DF7_ES = [pEvening]
      ∧ pEvening.beginTime < pEvening.classTime
      ∧ pEvening.endTime ≠ 22 * 60 := by
  refine ⟨by decide, by decide, by decide⟩

/-- C9 witness: Main Room 42 is not catalogued; its type falls back to
regular and its seat number comes from the text parse, yielding 42. -/
theorem C9_unknown_id_witness :
    (SEATS.lookup "Main Room 42" = none
      ∧ seatTypeOf "Main Room 42" = SeatType.reg
      ∧ seatNumberCell "Main Room 42" = parseSeatNum "Main Room 42")
    ∧ parseSeatNum "Main Room 42" = some 42 :=
  ⟨⟨by decide, (C9_unknown_id_fallback "Main Room 42" (by decide)).1,
    (C9_unknown_id_fallback "Main Room 42" (by decide)).2⟩, by decide⟩

/-- C10 witness: the partition theorem at a concrete one-person call. -/
theorem C10_scheduler_partition_witness :
    (∀ n l, (wShuffle n l).Perm l)
    ∧ (((assign_students wShuffle [pPlain1] ["WS 2"]).1.map Prod.fst
        ++ (assign_students wShuffle [pPlain1] ["WS 2"]).2).Perm [pPlain1]
      ∧ ∀ x ∈ (assign_students wShuffle [pPlain1] ["WS 2"]).1, x.2 ∈ ["WS 2"]) :=
  ⟨fun _ l => List.Perm.refl l,
   C10_scheduler_partition wShuffle [pPlain1] ["WS 2"] (fun _ l => List.Perm.refl l)⟩

end SeatApp
